import Mathlib

/-!
# VoxStream — verification of the streaming audio pipeline

Shallow embedding of the core audio pipeline of the VoxStream repository:

* base64 helpers (`base64ToBytes`, `bytesToBase64`, wrapping the platform
  `atob` / `btoa`, modelled here at the byte/character level);
* the PCM codec (`createPcmBlob`, `decodeAudioData`);
* the linear-interpolation resampler (`resampleTo16k`);
* the playback scheduler state of `LiveManager` (`nextStartTime` cursor,
  `activeSources` set, `handleMessage` enqueue path, `stopAllAudio`,
  `setVolume`).

Samples and clock values are embedded as rationals (the source computes with
IEEE numbers; every claim checked here concerns exact integer scaling,
index arithmetic and ordering, which the rational embedding reproduces).
JavaScript typed-array truncation (`ToInt16`) is modelled explicitly by
`truncInt` (truncation toward zero) followed by `wrap16` (wrap into the
signed 16-bit range), and little-endian byte packing by `int16ToBytesLE`.
-/

namespace VoxStream

/-! ## Base64 (platform `btoa` / `atob`, used by `bytesToBase64` / `base64ToBytes`) -/

/-- The base64 alphabet, index `n` holding the digit for sextet value `n`. -/
def b64chars : List Char :=
  ['A', 'B', 'C', 'D', 'E', 'F', 'G', 'H', 'I', 'J', 'K', 'L', 'M',
   'N', 'O', 'P', 'Q', 'R', 'S', 'T', 'U', 'V', 'W', 'X', 'Y', 'Z',
   'a', 'b', 'c', 'd', 'e', 'f', 'g', 'h', 'i', 'j', 'k', 'l', 'm',
   'n', 'o', 'p', 'q', 'r', 's', 't', 'u', 'v', 'w', 'x', 'y', 'z',
   '0', '1', '2', '3', '4', '5', '6', '7', '8', '9', '+', '/']

/-- Base64 digit for a sextet value. -/
def encB64 (n : ℕ) : Char := b64chars.getD n 'A'

/-- Sextet value of a base64 digit. -/
def decB64 (c : Char) : ℕ := b64chars.indexOf c

/-- The platform `btoa`: a binary string (here: its list of byte values)
encoded as base64 characters, three bytes to four digits, padded with `=`. -/
def btoa : List ℕ → List Char
  | [] => []
  | [a] => [encB64 (a / 4), encB64 (a % 4 * 16), '=', '=']
  | [a, b] => [encB64 (a / 4), encB64 (a % 4 * 16 + b / 16), encB64 (b % 16 * 4), '=']
  | a :: b :: c :: rest =>
      encB64 (a / 4) :: encB64 (a % 4 * 16 + b / 16) :: encB64 (b % 16 * 4 + c / 64) ::
        encB64 (c % 64) :: btoa rest

/-- The platform `atob`: base64 characters decoded back to the byte values of
the binary string, honouring `=` padding. -/
def atob : List Char → List ℕ
  | w :: x :: y :: z :: rest =>
      if z = '=' then
        if y = '=' then
          [decB64 w * 4 + decB64 x / 16]
        else
          [decB64 w * 4 + decB64 x / 16, decB64 x % 16 * 16 + decB64 y / 4]
      else
        (decB64 w * 4 + decB64 x / 16) :: (decB64 x % 16 * 16 + decB64 y / 4) ::
          (decB64 y % 4 * 64 + decB64 z) :: atob rest
  | _ => []

/-- `bytesToBase64` from the source: bytes → binary string → `btoa`.  The
byte-to-character conversion (`String.fromCharCode`) is the identity in this
byte-level model. -/
def bytesToBase64 (bytes : List ℕ) : List Char := btoa bytes

/-- `base64ToBytes` from the source: `atob` → per-character `charCodeAt`. -/
def base64ToBytes (s : List Char) : List ℕ := atob s

/-! ## PCM codec (`createPcmBlob`, `decodeAudioData`) -/

/-- JavaScript number-to-integer truncation (toward zero), on rationals. -/
def truncInt (q : ℚ) : ℤ := if q < 0 then ⌈q⌉ else ⌊q⌋

/-- Wrap an integer into the signed 16-bit range, as the `ToInt16` conversion
performed by an `Int16Array` element store does. -/
def wrap16 (n : ℤ) : ℤ :=
  if n % 65536 < 32768 then n % 65536 else n % 65536 - 65536

/-- The clamp in `createPcmBlob`: `Math.max(-1, Math.min(1, data[i]))`. -/
def clamp16 (x : ℚ) : ℚ := max (-1) (min 1 x)

/-- The scaled, truncated sample value before the 16-bit store:
`sample < 0 ? sample * 32768 : sample * 32767`, truncated to an integer. -/
def preEncode (x : ℚ) : ℤ :=
  if clamp16 x < 0 then truncInt (clamp16 x * 32768) else truncInt (clamp16 x * 32767)

/-- One sample as stored by `createPcmBlob` into the `Int16Array`. -/
def encodeSample (x : ℚ) : ℤ := wrap16 (preEncode x)

/-- Little-endian byte pair of one `Int16Array` element, as exposed by the
array's backing buffer. -/
def int16ToBytesLE (n : ℤ) : List ℕ :=
  [(n % 65536).toNat % 256, (n % 65536).toNat / 256]

/-- The backing byte buffer of an `Int16Array` (little-endian). -/
def int16sToBytesLE : List ℤ → List ℕ
  | [] => []
  | n :: rest => int16ToBytesLE n ++ int16sToBytesLE rest

/-- Signed interpretation of a 16-bit little-endian pair value. -/
def sint16 (v : ℕ) : ℤ := if v < 32768 then (v : ℤ) else (v : ℤ) - 65536

/-- Reading a byte buffer as an `Int16Array` (little-endian pairs). -/
def bytesToInt16s : List ℕ → List ℤ
  | b0 :: b1 :: rest => sint16 (b0 + 256 * b1) :: bytesToInt16s rest
  | _ => []

/-- The `Blob` value returned by `createPcmBlob`. -/
structure PcmBlob where
  data : List Char
  mimeType : String
deriving DecidableEq, Repr

/-- `createPcmBlob` from the source: clamp, asymmetric scale, 16-bit store,
base64 of the little-endian backing buffer, MIME tag with the given rate. -/
def createPcmBlob (data : List ℚ) (sampleRate : ℚ) : PcmBlob :=
  { data := bytesToBase64 (int16sToBytesLE (data.map encodeSample))
    mimeType := "audio/pcm;rate=" ++ toString sampleRate }

/-- The decoded `AudioBuffer`: a sample rate and per-channel sample data. -/
structure AudioBuffer where
  sampleRate : ℚ
  channels : List (List ℚ)
deriving DecidableEq, Repr

/-- `AudioBuffer.duration` = frame count divided by sample rate. -/
def AudioBuffer.duration (b : AudioBuffer) : ℚ :=
  ((b.channels.headD []).length : ℚ) / b.sampleRate

/-- `decodeAudioData` from the source.  `new Int16Array(data.buffer)` throws a
`RangeError` exactly when the byte length is odd; then
`frameCount = dataInt16.length / numChannels` floors (the fractional
JavaScript loop bound writes past the created buffer, which is ignored);
`ctx.createBuffer(numChannels, frameCount, sampleRate)` throws a
`NotSupportedError` when the truncated frame count is zero — `numChannels = 0`
also lands here, as natural division by zero is zero, matching the
`createBuffer` throw on a zero channel count.  Otherwise channel `ch`
receives `dataInt16[i * numChannels + ch] / 32768`.  (The
implementation-defined upper channel-count cap of real output devices is not
modelled; the session decodes mono.) -/
def decodeAudioData (data : List ℕ) (sampleRate : ℚ) (numChannels : ℕ) :
    Except String AudioBuffer :=
  if data.length % 2 ≠ 0 then
    Except.error "RangeError"
  else if (bytesToInt16s data).length / numChannels = 0 then
    Except.error "NotSupportedError"
  else
    Except.ok
      { sampleRate := sampleRate
        channels :=
          (List.range numChannels).map fun ch =>
            (List.range ((bytesToInt16s data).length / numChannels)).map fun i =>
              ((bytesToInt16s data).getD (i * numChannels + ch) 0 : ℚ) / 32768 }

/-! ## Resampler (`resampleTo16k`) -/

/-- `resampleTo16k` from the source: identity at 16000, otherwise linear
interpolation at positions `i * ratio`, with `newLength = round(length/ratio)`
(`Math.round q = ⌊q + 1/2⌋` on the nonnegative values arising here) and the
upper interpolation index clamped to the last sample. -/
def resampleTo16k (audioData : List ℚ) (origSampleRate : ℚ) : List ℚ :=
  if origSampleRate = 16000 then audioData
  else
    let ratio := origSampleRate / 16000
    let newLength := (⌊(audioData.length : ℚ) / ratio + 1 / 2⌋).toNat
    (List.range newLength).map fun i : ℕ =>
      let originalIndex : ℚ := (i : ℚ) * ratio
      let index1 := (⌊originalIndex⌋).toNat
      let index2 := min (index1 + 1) (audioData.length - 1)
      let fraction := originalIndex - ⌊originalIndex⌋
      audioData.getD index1 0 * (1 - fraction) + audioData.getD index2 0 * fraction

/-! ## Playback scheduler state of `LiveManager` -/

/-- An `AudioBufferSourceNode` held in `activeSources`: its scheduled start
time, the duration of its buffer, and whether it has already finished. -/
structure SourceNode where
  startTime : ℚ
  duration : ℚ
  finished : Bool
deriving DecidableEq, Repr

/-- The scheduler-relevant mutable state of `LiveManager`: the `nextStartTime`
cursor, the `activeSources` set, and the shared output gain (`none` when no
output node exists). -/
structure LMState where
  nextStartTime : ℚ
  activeSources : List SourceNode
  outputGain : Option ℚ
deriving DecidableEq, Repr

/-- The enqueue path of `handleMessage` (lines 168–184): clamp the cursor to
the device clock, start the source at the cursor, advance the cursor by the
buffer duration, add the source to `activeSources`. -/
def enqueueAudio (st : LMState) (now : ℚ) (dur : ℚ) : LMState :=
  let c := max st.nextStartTime now
  { st with
      nextStartTime := c + dur
      activeSources := ⟨c, dur, false⟩ :: st.activeSources }

/-- `source.stop()` on a finished node throws an `InvalidStateError`. -/
def stopSource (s : SourceNode) : Except String Unit :=
  if s.finished then Except.error "InvalidStateError" else Except.ok ()

/-- The guarded stop in `stopAllAudio`: the catch block swallows the error. -/
def stopSourceCaught (s : SourceNode) : Except String Unit :=
  match stopSource s with
  | Except.error _ => Except.ok ()
  | Except.ok u => Except.ok u

/-- `stopAllAudio` from the source: stop every source (errors swallowed),
clear `activeSources`, reset the cursor to the output context's current time,
or to `0` when no output context exists.  The device clock is passed as
`none`/`some t` mirroring the `if (this.outputAudioContext)` test. -/
def stopAllAudio (st : LMState) (deviceTime : Option ℚ) : LMState :=
  { st with
      activeSources := []
      nextStartTime :=
        match deviceTime with
        | some t => t
        | none => 0 }

/-- `setVolume` from the source: when the output gain node exists, set its
gain to `val / 100`; otherwise do nothing. -/
def setVolume (st : LMState) (val : ℚ) : LMState :=
  match st.outputGain with
  | none => st
  | some _ => { st with outputGain := some (val / 100) }

/-- `handleMessage` from the source, on the scheduler state: when an audio
payload is present, the cursor is first clamped to the device clock, then the
payload is base64-decoded and PCM-decoded at 24000 Hz mono; a decode error is
caught and the payload dropped (the session is not torn down), a successful
decode is enqueued.  When the `interrupted` flag is set, `stopAllAudio` runs. -/
def handleMessage (st : LMState) (now : ℚ) (audio : Option (List Char))
    (interrupted : Bool) : LMState :=
  let st1 :=
    match audio with
    | none => st
    | some b64 =>
        let st' := { st with nextStartTime := max st.nextStartTime now }
        match decodeAudioData (base64ToBytes b64) 24000 1 with
        | Except.error _ => st'
        | Except.ok buf =>
            { st' with
                nextStartTime := st'.nextStartTime + buf.duration
                activeSources :=
                  ⟨st'.nextStartTime, buf.duration, false⟩ :: st'.activeSources }
  if interrupted then stopAllAudio st1 (some now) else st1

/-- The per-call trace of the scheduler: for a list of `(deviceTime, duration)`
enqueue calls, the `(startTime, duration)` of each scheduled source, with the
state threaded through `enqueueAudio`. -/
def schedTrace : LMState → List (ℚ × ℚ) → List (ℚ × ℚ)
  | _, [] => []
  | st, (t, d) :: rest =>
      (max st.nextStartTime t, d) :: schedTrace (enqueueAudio st t d) rest

/-- The cursor values around a run of enqueue calls: the initial cursor
followed by the cursor after each call (`startTime + duration`). -/
def cursorHist (st : LMState) (calls : List (ℚ × ℚ)) : List ℚ :=
  st.nextStartTime :: (schedTrace st calls).map fun u => u.1 + u.2

/-- The mono round trip of the PCM codec: encode with `createPcmBlob`, ship
as base64, decode with `decodeAudioData` at a matching rate and channel
count, read back the single channel. -/
def pcmRoundTrip (s : List ℚ) : List ℚ :=
  match decodeAudioData (base64ToBytes (createPcmBlob s 16000).data) 16000 1 with
  | Except.ok buf => buf.channels.headD []
  | Except.error _ => []

/-! ## Base64 round trip -/

/-- Decoding a base64 digit returns the encoded sextet. -/
theorem decB64_encB64 : ∀ n : Fin 64, decB64 (encB64 (n : ℕ)) = (n : ℕ) := by decide

/-- Base64 digits are never the padding character. -/
theorem encB64_ne_pad : ∀ n : Fin 64, encB64 (n : ℕ) ≠ '=' := by decide

theorem decB64_encB64_of_lt {n : ℕ} (h : n < 64) : decB64 (encB64 n) = n :=
  decB64_encB64 ⟨n, h⟩

theorem encB64_ne_pad_of_lt {n : ℕ} (h : n < 64) : encB64 n ≠ '=' :=
  encB64_ne_pad ⟨n, h⟩

/-- `atob` inverts `btoa` on byte lists. -/
theorem atob_btoa : ∀ l : List ℕ, (∀ b ∈ l, b < 256) → atob (btoa l) = l
  | [], _ => rfl
  | [a], h => by
      have ha : a < 256 := h a (by simp)
      simp only [btoa, atob, if_pos rfl, if_true]
      rw [decB64_encB64_of_lt (by omega), decB64_encB64_of_lt (by omega)]
      simp only [List.cons.injEq, and_true]
      omega
  | [a, b], h => by
      have ha : a < 256 := h a (by simp)
      have hb : b < 256 := h b (by simp)
      simp only [btoa, atob, if_pos rfl, if_true,
        if_neg (encB64_ne_pad_of_lt (by omega : b % 16 * 4 < 64))]
      rw [decB64_encB64_of_lt (by omega), decB64_encB64_of_lt (by omega),
        decB64_encB64_of_lt (by omega)]
      simp only [List.cons.injEq, and_true]
      omega
  | a :: b :: c :: rest, h => by
      have ha : a < 256 := h a (by simp)
      have hb : b < 256 := h b (by simp)
      have hc : c < 256 := h c (by simp)
      have hrest : ∀ x ∈ rest, x < 256 := fun x hx => h x (by simp [hx])
      simp only [btoa, atob, if_neg (encB64_ne_pad_of_lt (by omega : c % 64 < 64))]
      rw [decB64_encB64_of_lt (by omega), decB64_encB64_of_lt (by omega),
        decB64_encB64_of_lt (by omega), decB64_encB64_of_lt (by omega),
        atob_btoa rest hrest]
      simp only [List.cons.injEq, and_true]
      omega

/-- Round trip of the repository's helpers, stated on them. -/
theorem b64_roundtrip (bytes : List ℕ) (h : ∀ b ∈ bytes, b < 256) :
    base64ToBytes (bytesToBase64 bytes) = bytes :=
  atob_btoa bytes h

/-- Claim C10: for every byte array `b`, `base64ToBytes (bytesToBase64 b)`
returns an array of the same length with the same byte at every index — the
base64 wire encoding is lossless and the two helpers are mutually inverse. -/
theorem claim10_base64_roundtrip (bytes : List ℕ) (h : ∀ b ∈ bytes, b < 256) :
    base64ToBytes (bytesToBase64 bytes) = bytes :=
  b64_roundtrip bytes h

/-- Witness for claim C10 at the concrete byte array `[0, 1, 255, 77, 200]`. -/
theorem claim10_base64_roundtrip_witness :
    base64ToBytes (bytesToBase64 [0, 1, 255, 77, 200]) = [0, 1, 255, 77, 200] :=
  claim10_base64_roundtrip [0, 1, 255, 77, 200] (by decide)

/-! ## PCM codec properties -/

theorem neg_one_le_clamp16 (x : ℚ) : -1 ≤ clamp16 x := le_max_left _ _

theorem clamp16_le_one (x : ℚ) : clamp16 x ≤ 1 :=
  max_le (by norm_num) (min_le_left _ _)

/-- The scaled, truncated sample is already inside the signed 16-bit range. -/
theorem preEncode_range (x : ℚ) : -32768 ≤ preEncode x ∧ preEncode x ≤ 32767 := by
  have hc1 := neg_one_le_clamp16 x
  have hc2 := clamp16_le_one x
  unfold preEncode truncInt
  by_cases h : clamp16 x < 0
  · rw [if_pos h, if_pos (by nlinarith : clamp16 x * 32768 < 0)]
    constructor
    · have h3 := Int.le_ceil (clamp16 x * 32768)
      have h4 : (-32768 : ℚ) ≤ clamp16 x * 32768 := by nlinarith
      exact_mod_cast h4.trans h3
    · have h5 := Int.ceil_le.mpr (show clamp16 x * 32768 ≤ ((0 : ℤ) : ℚ) by push_cast; nlinarith)
      omega
  · rw [if_neg h, if_neg (by push_neg at h; nlinarith : ¬clamp16 x * 32767 < 0)]
    push_neg at h
    constructor
    · have h3 : (0 : ℤ) ≤ ⌊clamp16 x * 32767⌋ :=
        Int.le_floor.mpr (by push_cast; nlinarith)
      omega
    · have h4 := Int.floor_le (clamp16 x * 32767)
      have h5 : clamp16 x * 32767 ≤ ((32767 : ℤ) : ℚ) := by push_cast; nlinarith
      exact_mod_cast h4.trans h5

/-- No wraparound: inside the signed 16-bit range, the `ToInt16` store is
the identity. -/
theorem wrap16_eq_self (n : ℤ) (h1 : -32768 ≤ n) (h2 : n ≤ 32767) : wrap16 n = n := by
  simp only [wrap16]
  split <;> omega

theorem encodeSample_eq_pre (x : ℚ) : encodeSample x = preEncode x :=
  wrap16_eq_self _ (preEncode_range x).1 (preEncode_range x).2

theorem encodeSample_range (x : ℚ) :
    -32768 ≤ encodeSample x ∧ encodeSample x ≤ 32767 := by
  rw [encodeSample_eq_pre]; exact preEncode_range x

/-- Reading back the little-endian byte pair of an in-range 16-bit value. -/
theorem sint16_pair (n : ℤ) (h1 : -32768 ≤ n) (h2 : n ≤ 32767) :
    sint16 ((n % 65536).toNat % 256 + 256 * ((n % 65536).toNat / 256)) = n := by
  simp only [sint16]
  split <;> omega

theorem int16_bytes_rt (n : ℤ) (h1 : -32768 ≤ n) (h2 : n ≤ 32767) :
    bytesToInt16s (int16ToBytesLE n) = [n] := by
  simp only [int16ToBytesLE, bytesToInt16s]
  rw [sint16_pair n h1 h2]

theorem int16sToBytesLE_lt : ∀ l : List ℤ, ∀ b ∈ int16sToBytesLE l, b < 256
  | [] => by simp [int16sToBytesLE]
  | n :: rest => by
      intro b hb
      rcases List.mem_append.mp hb with h | h
      · simp only [int16ToBytesLE, List.mem_cons, List.mem_singleton,
          List.not_mem_nil, or_false] at h
        rcases h with rfl | rfl <;> omega
      · exact int16sToBytesLE_lt rest b h

theorem int16sToBytesLE_length : ∀ l : List ℤ, (int16sToBytesLE l).length = 2 * l.length
  | [] => rfl
  | n :: rest => by
      simp only [int16sToBytesLE, int16ToBytesLE, List.length_append, List.length_cons,
        List.length_singleton, List.length_nil, int16sToBytesLE_length rest]
      omega

theorem bytesToInt16s_int16s :
    ∀ l : List ℤ, (∀ n ∈ l, -32768 ≤ n ∧ n ≤ 32767) →
      bytesToInt16s (int16sToBytesLE l) = l
  | [], _ => rfl
  | n :: rest, h => by
      have hn := h n (List.mem_cons_self _ _)
      have hrest : ∀ m ∈ rest, -32768 ≤ m ∧ m ≤ 32767 :=
        fun m hm => h m (List.mem_cons_of_mem _ hm)
      rw [show int16sToBytesLE (n :: rest) =
            (n % 65536).toNat % 256 :: (n % 65536).toNat / 256 :: int16sToBytesLE rest
          from rfl]
      rw [show bytesToInt16s
            ((n % 65536).toNat % 256 :: (n % 65536).toNat / 256 :: int16sToBytesLE rest) =
            sint16 ((n % 65536).toNat % 256 + 256 * ((n % 65536).toNat / 256)) ::
              bytesToInt16s (int16sToBytesLE rest)
          from rfl]
      rw [bytesToInt16s_int16s rest hrest, sint16_pair n hn.1 hn.2]

theorem range_map_div (l : List ℤ) :
    (List.range l.length).map (fun i => ((l.getD i 0 : ℤ) : ℚ) / 32768) =
      l.map (fun n : ℤ => (n : ℚ) / 32768) := by
  induction l with
  | nil => rfl
  | cons a t ih =>
      rw [List.length_cons, List.range_succ_eq_map, List.map_cons, List.map_map,
        List.map_cons]
      simp only [Function.comp_def, List.getD_cons_zero, List.getD_cons_succ]
      rw [ih]

theorem bytesToInt16s_length : ∀ l : List ℕ, (bytesToInt16s l).length = l.length / 2
  | [] => rfl
  | [_] => by simp [bytesToInt16s]
  | _ :: _ :: rest => by
      simp only [bytesToInt16s, List.length_cons, bytesToInt16s_length rest]
      omega

/-- Mono decode of a non-empty even-length byte buffer: one channel holding
every 16-bit sample divided by 32768. -/
theorem decode_mono (bytes : List ℕ) (h : bytes.length % 2 = 0)
    (hpos : bytes.length ≠ 0) (sr : ℚ) :
    decodeAudioData bytes sr 1 =
      Except.ok ⟨sr, [(bytesToInt16s bytes).map (fun n : ℤ => (n : ℚ) / 32768)]⟩ := by
  unfold decodeAudioData
  rw [if_neg (by omega), if_neg (by rw [bytesToInt16s_length]; omega)]
  rw [show List.range 1 = [0] from rfl]
  simp only [List.map_cons, List.map_nil, Nat.div_one, mul_one, add_zero]
  rw [range_map_div]

/-- The full wire round trip (`createPcmBlob`, base64, `decodeAudioData`)
reduces to the per-sample scale/truncate/rescale map. -/
theorem pcmRoundTrip_eq (s : List ℚ) :
    pcmRoundTrip s = s.map fun x => ((encodeSample x : ℤ) : ℚ) / 32768 := by
  by_cases hs : s = []
  · subst hs
    rfl
  · have hrange : ∀ n ∈ s.map encodeSample, -32768 ≤ n ∧ n ≤ 32767 := by
      intro n hn
      obtain ⟨x, _, rfl⟩ := List.mem_map.mp hn
      exact encodeSample_range x
    have hlen : (int16sToBytesLE (s.map encodeSample)).length % 2 = 0 := by
      rw [int16sToBytesLE_length]; omega
    have hpos : (int16sToBytesLE (s.map encodeSample)).length ≠ 0 := by
      rw [int16sToBytesLE_length, List.length_map]
      have := List.length_pos.mpr hs
      omega
    show (match
        decodeAudioData
          (base64ToBytes (bytesToBase64 (int16sToBytesLE (s.map encodeSample)))) 16000 1 with
      | Except.ok buf => buf.channels.headD []
      | Except.error _ => []) = _
    rw [b64_roundtrip _ (int16sToBytesLE_lt _), decode_mono _ hlen hpos,
      bytesToInt16s_int16s _ hrange]
    simp [List.map_map, Function.comp_def]

/-- A single clamped sample survives the round trip to within two
quantization steps. -/
theorem roundtrip_sample_bound (x : ℚ) (h1 : -1 ≤ x) (h2 : x ≤ 1) :
    |((encodeSample x : ℤ) : ℚ) / 32768 - x| ≤ 2 / 32768 := by
  rw [encodeSample_eq_pre]
  have hc : clamp16 x = x := by
    unfold clamp16; rw [min_eq_right h2, max_eq_right h1]
  unfold preEncode truncInt
  rw [hc]
  by_cases hx : x < 0
  · rw [if_pos hx, if_pos (by nlinarith : x * 32768 < 0)]
    have h3 := Int.le_ceil (x * 32768)
    have h4 := Int.ceil_lt_add_one (x * 32768)
    rw [abs_le]
    constructor <;> (push_cast at h3 h4 ⊢; linarith)
  · push_neg at hx
    rw [if_neg (by linarith), if_neg (by nlinarith : ¬x * 32767 < 0)]
    have h3 := Int.floor_le (x * 32767)
    have h4 := Int.lt_floor_add_one (x * 32767)
    rw [abs_le]
    constructor <;> (push_cast at h3 h4 ⊢; linarith)

/-- Claim C3 counterexample: the sample `65535/65536` lies in `[-1, 1]`, yet
its decode-of-encode differs from it by `3/65536`, which exceeds one
quantization step `1/32768`.  (Nonnegative samples are scaled by 32767 on
encode but rescaled by 32768 on decode, so the error can reach almost two
steps.) -/
theorem claim3_counterexample :
    (-1 ≤ (65535 / 65536 : ℚ) ∧ (65535 / 65536 : ℚ) ≤ 1) ∧
    1 / 32768 < |(pcmRoundTrip [65535 / 65536]).getD 0 0 - (65535 / 65536 : ℚ)| := by
  refine ⟨⟨by norm_num, by norm_num⟩, ?_⟩
  have he : encodeSample (65535 / 65536 : ℚ) = 32766 := by
    rw [encodeSample_eq_pre]
    unfold preEncode clamp16 truncInt
    rw [min_eq_right (by norm_num : (65535 / 65536 : ℚ) ≤ 1),
      max_eq_right (by norm_num : (-1 : ℚ) ≤ 65535 / 65536),
      if_neg (by norm_num), if_neg (by norm_num)]
    norm_num
  rw [pcmRoundTrip_eq]
  simp only [List.map_cons, List.map_nil, he, List.getD_cons_zero]
  rw [show ((32766 : ℤ) : ℚ) / 32768 - 65535 / 65536 = -(3 / 65536) by norm_num,
    abs_neg, abs_of_nonneg (by norm_num : (0 : ℚ) ≤ 3 / 65536)]
  norm_num

/-- Claim C3 (amended): for every nonempty buffer of samples in `[-1, 1]`,
decoding the encoding succeeds and yields a buffer of the same length in
which every sample differs from the corresponding input sample by at most two
quantization steps, `2/32768`.  (The empty buffer is excluded: its encoding
has zero frames, and the output context's buffer creation rejects a zero
frame count.) -/
theorem claim3_roundtrip_two_steps (s : List ℚ) (hs : s ≠ [])
    (h : ∀ x ∈ s, -1 ≤ x ∧ x ≤ 1) :
    (∃ buf, decodeAudioData (base64ToBytes (createPcmBlob s 16000).data) 16000 1 =
        Except.ok buf) ∧
    (pcmRoundTrip s).length = s.length ∧
    ∀ i, i < s.length → |(pcmRoundTrip s).getD i 0 - s.getD i 0| ≤ 2 / 32768 := by
  have hlen : (int16sToBytesLE (s.map encodeSample)).length % 2 = 0 := by
    rw [int16sToBytesLE_length]; omega
  have hpos : (int16sToBytesLE (s.map encodeSample)).length ≠ 0 := by
    rw [int16sToBytesLE_length, List.length_map]
    have := List.length_pos.mpr hs
    omega
  refine ⟨?_, ?_, ?_⟩
  · exact ⟨_, by
      rw [show (createPcmBlob s 16000).data =
          bytesToBase64 (int16sToBytesLE (s.map encodeSample)) from rfl,
        b64_roundtrip _ (int16sToBytesLE_lt _)]
      exact decode_mono _ hlen hpos 16000⟩
  · rw [pcmRoundTrip_eq, List.length_map]
  · intro i hi
    rw [pcmRoundTrip_eq,
      List.getD_eq_getElem _ _ (by simpa using hi), List.getElem_map,
      List.getD_eq_getElem _ _ hi]
    exact roundtrip_sample_bound _ (h _ (List.getElem_mem hi)).1
      (h _ (List.getElem_mem hi)).2

/-- Witness for the amended claim C3 at the spec's scenario buffer
`[1.0, -1.0, 0.0]`. -/
theorem claim3_roundtrip_two_steps_witness :
    (pcmRoundTrip [1, -1, 0]).length = ([1, -1, 0] : List ℚ).length ∧
    |(pcmRoundTrip [1, -1, 0]).getD 0 0 - ([1, -1, 0] : List ℚ).getD 0 0| ≤ 2 / 32768 ∧
    |(pcmRoundTrip [1, -1, 0]).getD 1 0 - ([1, -1, 0] : List ℚ).getD 1 0| ≤ 2 / 32768 ∧
    |(pcmRoundTrip [1, -1, 0]).getD 2 0 - ([1, -1, 0] : List ℚ).getD 2 0| ≤ 2 / 32768 :=
  have h := claim3_roundtrip_two_steps [1, -1, 0] (by simp) (by norm_num)
  ⟨h.2.1, h.2.2 0 (by decide), h.2.2 1 (by decide), h.2.2 2 (by decide)⟩

/-- Claim C4: for every input sample (also outside `[-1, 1]`), `createPcmBlob`
clamps, scales negative values by 32768 and nonnegative ones by 32767,
truncates to an integer, and the stored 16-bit value lies in
`[-32768, 32767]`, so the store never wraps; the little-endian byte pair
reads back as exactly that value. -/
theorem claim4_encode_clamps_no_wrap (x : ℚ) :
    encodeSample x =
      (if clamp16 x < 0 then truncInt (clamp16 x * 32768) else truncInt (clamp16 x * 32767)) ∧
    -32768 ≤ encodeSample x ∧ encodeSample x ≤ 32767 ∧
    bytesToInt16s (int16ToBytesLE (encodeSample x)) = [encodeSample x] := by
  refine ⟨encodeSample_eq_pre x, (encodeSample_range x).1, (encodeSample_range x).2, ?_⟩
  exact int16_bytes_rt _ (encodeSample_range x).1 (encodeSample_range x).2

/-! ## Resampler properties -/

/-- Claim C5: when the source rate equals the target rate 16000, the
resampler returns its input unchanged. -/
theorem claim5_resample_identity (x : List ℚ) : resampleTo16k x 16000 = x := by
  simp [resampleTo16k]

/-- Claim C6: for a rate conversion, the output length equals
`round(inputLength * targetRate / sourceRate)` exactly (hence within the
claim's rounding tolerance of 1). -/
theorem claim6_resample_length (x : List ℚ) (r : ℚ) (h0 : 0 < r) (hne : r ≠ 16000) :
    (resampleTo16k x r).length = (⌊(x.length : ℚ) * 16000 / r + 1 / 2⌋).toNat := by
  rw [resampleTo16k, if_neg hne]
  simp only [List.length_map, List.length_range]
  rw [div_div_eq_mul_div]

/-- Witness for claim C6 at the spec's scenario: a 4096-sample block at
48000 Hz resamples to 1365 samples at 16000 Hz. -/
theorem claim6_resample_length_witness :
    (resampleTo16k (List.replicate 4096 0) 48000).length = 1365 := by
  rw [claim6_resample_length (List.replicate 4096 0) 48000 (by norm_num) (by norm_num)]
  rw [List.length_replicate]
  norm_num
  decide

/-- End-to-end bound used in claim C7: an output index below the produced
length keeps the scaled source position strictly below the input length. -/
theorem resample_pos_lt (len : ℕ) (r : ℚ) (hr : 0 < r) (i : ℕ)
    (hi : i < (⌊(len : ℚ) / (r / 16000) + 1 / 2⌋).toNat) :
    (i : ℚ) * (r / 16000) < len := by
  set ratio := r / 16000 with hratio
  have hrat : 0 < ratio := by positivity
  have h1 : (i : ℤ) < ⌊(len : ℚ) / ratio + 1 / 2⌋ := by
    set z := ⌊(len : ℚ) / ratio + 1 / 2⌋
    omega
  have h2 : ((i : ℚ) + 1) ≤ (len : ℚ) / ratio + 1 / 2 := by
    have := Int.floor_le ((len : ℚ) / ratio + 1 / 2)
    have hcast : ((i : ℚ) + 1) ≤ ((⌊(len : ℚ) / ratio + 1 / 2⌋ : ℤ) : ℚ) := by
      exact_mod_cast h1
    linarith
  have h3 : (i : ℚ) ≤ (len : ℚ) / ratio - 1 / 2 := by linarith
  have h4 : (i : ℚ) * ratio ≤ ((len : ℚ) / ratio - 1 / 2) * ratio :=
    mul_le_mul_of_nonneg_right h3 hrat.le
  have h5 : ((len : ℚ) / ratio - 1 / 2) * ratio = (len : ℚ) - ratio / 2 := by
    rw [sub_mul, div_mul_cancel₀ _ (ne_of_gt hrat)]
    ring
  linarith

/-- Claim C7: for every nonempty buffer and positive source rate, each output
sample is the linear interpolation of the two input samples at indices
`⌊i·ratio⌋` and `min (⌊i·ratio⌋ + 1) (length - 1)`, and both indices are in
bounds — no out-of-bounds read occurs. -/
theorem claim7_resample_interp (x : List ℚ) (r : ℚ) (hx : x ≠ []) (hr : 0 < r)
    (i : ℕ) (hi : i < (resampleTo16k x r).length) :
    (⌊(i : ℚ) * (r / 16000)⌋).toNat < x.length ∧
    min ((⌊(i : ℚ) * (r / 16000)⌋).toNat + 1) (x.length - 1) < x.length ∧
    (resampleTo16k x r).getD i 0 =
      x.getD (⌊(i : ℚ) * (r / 16000)⌋).toNat 0 *
          (1 - ((i : ℚ) * (r / 16000) - ⌊(i : ℚ) * (r / 16000)⌋)) +
        x.getD (min ((⌊(i : ℚ) * (r / 16000)⌋).toNat + 1) (x.length - 1)) 0 *
          ((i : ℚ) * (r / 16000) - ⌊(i : ℚ) * (r / 16000)⌋) := by
  have hlen : 0 < x.length := List.length_pos.mpr hx
  by_cases h16 : r = 16000
  · subst h16
    rw [claim5_resample_identity] at hi ⊢
    rw [show (16000 : ℚ) / 16000 = 1 by norm_num, mul_one, Int.floor_natCast]
    simp only [Int.toNat_natCast, Int.cast_natCast, sub_self, mul_zero, mul_one,
      sub_zero, add_zero]
    exact ⟨hi, by omega, trivial⟩
  · have hiN : i < (⌊(x.length : ℚ) / (r / 16000) + 1 / 2⌋).toNat := by
      rw [resampleTo16k, if_neg h16] at hi
      simpa using hi
    have hpos := resample_pos_lt x.length r hr i hiN
    have hfl : ⌊(i : ℚ) * (r / 16000)⌋ < (x.length : ℤ) :=
      Int.floor_lt.mpr (by exact_mod_cast hpos)
    refine ⟨by omega, by omega, ?_⟩
    rw [resampleTo16k, if_neg h16]
    rw [List.getD_eq_getElem _ _ (by simpa using hiN), List.getElem_map,
      List.getElem_range]

/-- Witness for claim C7 on the buffer `[1, 2]` at source rate 48000, output
index 0. -/
theorem claim7_resample_interp_witness :
    (⌊((0 : ℕ) : ℚ) * (48000 / 16000)⌋).toNat < ([1, 2] : List ℚ).length ∧
    min ((⌊((0 : ℕ) : ℚ) * (48000 / 16000)⌋).toNat + 1) (([1, 2] : List ℚ).length - 1) <
      ([1, 2] : List ℚ).length ∧
    (resampleTo16k [1, 2] 48000).getD 0 0 =
      ([1, 2] : List ℚ).getD (⌊((0 : ℕ) : ℚ) * (48000 / 16000)⌋).toNat 0 *
          (1 - (((0 : ℕ) : ℚ) * (48000 / 16000) - ⌊((0 : ℕ) : ℚ) * (48000 / 16000)⌋)) +
        ([1, 2] : List ℚ).getD
            (min ((⌊((0 : ℕ) : ℚ) * (48000 / 16000)⌋).toNat + 1)
              (([1, 2] : List ℚ).length - 1)) 0 *
          (((0 : ℕ) : ℚ) * (48000 / 16000) - ⌊((0 : ℕ) : ℚ) * (48000 / 16000)⌋) :=
  claim7_resample_interp [1, 2] 48000 (by simp) (by norm_num) 0
    (by rw [claim6_resample_length [1, 2] 48000 (by norm_num) (by norm_num)]; norm_num)

/-! ## Scheduler properties -/

theorem cursorHist_cons (st : LMState) (t d : ℚ) (rest : List (ℚ × ℚ)) :
    cursorHist st ((t, d) :: rest) =
      st.nextStartTime :: cursorHist (enqueueAudio st t d) rest := rfl

/-- Every source in a trace starts no earlier than the cursor at the start of
the run. -/
theorem schedTrace_head_le (st : LMState) (calls : List (ℚ × ℚ)) :
    ∀ u ∈ (schedTrace st calls).head?, st.nextStartTime ≤ u.1 := by
  cases calls with
  | nil => simp [schedTrace]
  | cons p rest =>
      obtain ⟨t, d⟩ := p
      intro u hu
      simp only [schedTrace, List.head?_cons, Option.mem_def, Option.some.injEq] at hu
      subst hu
      exact le_max_left _ _

/-- Consecutive scheduled units never overlap: each start time is at least the
previous start time plus the previous duration. -/
theorem schedTrace_chain (st : LMState) (calls : List (ℚ × ℚ)) :
    List.Chain' (fun u v : ℚ × ℚ => u.1 + u.2 ≤ v.1) (schedTrace st calls) := by
  induction calls generalizing st with
  | nil => simp [schedTrace]
  | cons p rest ih =>
      obtain ⟨t, d⟩ := p
      rw [show schedTrace st ((t, d) :: rest) =
            (max st.nextStartTime t, d) :: schedTrace (enqueueAudio st t d) rest from rfl]
      refine List.chain'_cons'.mpr ⟨?_, ih (enqueueAudio st t d)⟩
      intro u hu
      have h := schedTrace_head_le (enqueueAudio st t d) rest u hu
      simpa [enqueueAudio] using h

/-- The cursor is non-decreasing along a run of enqueues with nonnegative
durations. -/
theorem cursorHist_chain (st : LMState) (calls : List (ℚ × ℚ))
    (hd : ∀ p ∈ calls, 0 ≤ p.2) :
    List.Chain' (· ≤ ·) (cursorHist st calls) := by
  induction calls generalizing st with
  | nil => exact List.chain'_singleton _
  | cons p rest ih =>
      obtain ⟨t, d⟩ := p
      have hd0 : (0 : ℚ) ≤ d := hd (t, d) (List.mem_cons_self _ _)
      have hrest : ∀ q ∈ rest, (0 : ℚ) ≤ q.2 := fun q hq => hd q (List.mem_cons_of_mem _ hq)
      rw [cursorHist_cons]
      rw [show cursorHist (enqueueAudio st t d) rest =
            (max st.nextStartTime t + d) :: (schedTrace (enqueueAudio st t d) rest).map
              (fun u => u.1 + u.2) from rfl]
      refine List.chain'_cons.mpr ⟨?_, ?_⟩
      · have := le_max_left st.nextStartTime t
        linarith
      · exact ih (enqueueAudio st t d) hrest

/-- Each scheduled start time is the max of the cursor at the moment of the
call and the device time passed to that call. -/
theorem schedTrace_getD (st : LMState) (calls : List (ℚ × ℚ)) :
    ∀ i, i < calls.length →
      (schedTrace st calls).getD i (0, 0) =
        (max ((cursorHist st calls).getD i 0) ((calls.getD i ((0 : ℚ), (0 : ℚ))).1),
          (calls.getD i ((0 : ℚ), (0 : ℚ))).2) := by
  induction calls generalizing st with
  | nil => intro i h; simp at h
  | cons p rest ih =>
      obtain ⟨t, d⟩ := p
      intro i hi
      cases i with
      | zero => simp [schedTrace, cursorHist]
      | succ n =>
          have hn : n < rest.length := by simpa using hi
          have := ih (enqueueAudio st t d) n hn
          simpa [schedTrace, cursorHist_cons, List.getD_cons_succ] using this

/-- Claim C1: over any run of enqueue calls with no interleaved interrupt and
nonnegative buffer durations, the scheduled units never overlap (each start
time is at least the previous start plus the previous duration), the
`nextStartTime` cursor is non-decreasing, and every unit's start time equals
`max (cursor, device current time)` at the moment of its call. -/
theorem claim1_scheduler_monotone (st : LMState) (calls : List (ℚ × ℚ))
    (hd : ∀ p ∈ calls, 0 ≤ p.2) :
    List.Chain' (fun u v : ℚ × ℚ => u.1 + u.2 ≤ v.1) (schedTrace st calls) ∧
    List.Chain' (· ≤ ·) (cursorHist st calls) ∧
    ∀ i, i < calls.length →
      (schedTrace st calls).getD i (0, 0) =
        (max ((cursorHist st calls).getD i 0) ((calls.getD i ((0 : ℚ), (0 : ℚ))).1),
          (calls.getD i ((0 : ℚ), (0 : ℚ))).2) :=
  ⟨schedTrace_chain st calls, cursorHist_chain st calls hd, schedTrace_getD st calls⟩

/-- Witness for claim C1: two half-second buffers enqueued from cursor 0 at
device time 0. -/
theorem claim1_scheduler_monotone_witness :
    List.Chain' (fun u v : ℚ × ℚ => u.1 + u.2 ≤ v.1)
      (schedTrace ⟨0, [], none⟩ [(0, 1 / 2), (0, 1 / 2)]) ∧
    List.Chain' (· ≤ ·) (cursorHist ⟨0, [], none⟩ [(0, 1 / 2), (0, 1 / 2)]) ∧
    (schedTrace ⟨0, [], none⟩ [(0, 1 / 2), (0, 1 / 2)]).getD 1 (0, 0) =
      (max ((cursorHist ⟨0, [], none⟩ [(0, 1 / 2), (0, 1 / 2)]).getD 1 0)
          ((([(0, 1 / 2), (0, 1 / 2)] : List (ℚ × ℚ)).getD 1 ((0 : ℚ), (0 : ℚ))).1),
        (([(0, 1 / 2), (0, 1 / 2)] : List (ℚ × ℚ)).getD 1 ((0 : ℚ), (0 : ℚ))).2) :=
  have h := claim1_scheduler_monotone ⟨0, [], none⟩ [(0, 1 / 2), (0, 1 / 2)]
    (by norm_num)
  ⟨h.1, h.2.1, h.2.2 1 (by simp)⟩

/-- Claim C2: after `stopAllAudio`, `activeSources` is empty and
`nextStartTime` equals the output device's current time, or `0` when no
output device is active; stopping an already-finished source is a no-op (the
error is swallowed), not a failure. -/
theorem claim2_interrupt_clears (st : LMState) (deviceTime : Option ℚ) :
    (stopAllAudio st deviceTime).activeSources = [] ∧
    (stopAllAudio st deviceTime).nextStartTime = deviceTime.getD 0 ∧
    ∀ s : SourceNode, stopSourceCaught s = Except.ok () := by
  refine ⟨rfl, ?_, ?_⟩
  · cases deviceTime <;> rfl
  · intro s
    by_cases h : s.finished <;> simp [stopSourceCaught, stopSource, h]

/-- Claim C9: with an output gain node present, `setVolume val` for
`val ∈ [0, 100]` sets the single shared gain to exactly `val / 100`, a value
in `[0, 1]`, and touches neither the scheduled sources nor the cursor (the
gain is a property of the shared output path). -/
theorem claim9_setVolume (st : LMState) (g val : ℚ) (hg : st.outputGain = some g)
    (h0 : 0 ≤ val) (h1 : val ≤ 100) :
    (setVolume st val).outputGain = some (val / 100) ∧
    0 ≤ val / 100 ∧ val / 100 ≤ 1 ∧
    (setVolume st val).activeSources = st.activeSources ∧
    (setVolume st val).nextStartTime = st.nextStartTime := by
  unfold setVolume
  rw [hg]
  exact ⟨rfl, by positivity, by linarith, rfl, rfl⟩

/-- Witness for claim C9 at volume 75 on a connected state. -/
theorem claim9_setVolume_witness :
    (setVolume ⟨0, [], some 1⟩ 75).outputGain = some (75 / 100) ∧
    0 ≤ (75 : ℚ) / 100 ∧ (75 : ℚ) / 100 ≤ 1 ∧
    (setVolume ⟨0, [], some 1⟩ 75).activeSources = (⟨0, [], some 1⟩ : LMState).activeSources ∧
    (setVolume ⟨0, [], some 1⟩ 75).nextStartTime = (⟨0, [], some 1⟩ : LMState).nextStartTime :=
  claim9_setVolume ⟨0, [], some 1⟩ 1 75 rfl (by norm_num) (by norm_num)

/-! ## Decode error behaviour -/

/-- Claim C8 counterexample: six bytes with two channels — the byte length is
not a multiple of `2 * channelCount`, yet `decodeAudioData` succeeds (the
`Int16Array` view construction only rejects odd byte lengths). -/
theorem claim8_counterexample :
    (decodeAudioData (List.replicate 6 0) 24000 2).toOption.isSome = true ∧
    (List.replicate 6 0).length % (2 * 2) = 2 := by
  constructor
  · rw [show decodeAudioData (List.replicate 6 0) 24000 2 =
        Except.ok ⟨24000,
          (List.range 2).map fun ch =>
            (List.range ((bytesToInt16s (List.replicate 6 0)).length / 2)).map fun i =>
              ((bytesToInt16s (List.replicate 6 0)).getD (i * 2 + ch) 0 : ℚ) / 32768⟩
      from by unfold decodeAudioData; rw [if_neg (by decide), if_neg (by decide)]]
    rfl
  · decide

/-- Claim C8 (amended): `decodeAudioData` fails exactly when the byte length
is odd (the `Int16Array` view construction, a `RangeError`) or the truncated
frame count `⌊byteLength/2/channelCount⌋` is zero (the output context's
`createBuffer` rejects a zero frame or channel count, a `NotSupportedError`)
— not when the byte length misses the claim's `2 * channelCount`
multiplicity; for the session's mono decoding of a non-empty payload this
coincides with the `2 * channelCount` condition.  On all other inputs it
succeeds with `⌊byteLength/2/channelCount⌋` de-interleaved samples per
channel, each 16-bit value divided by 32768; and a decode failure inside
`handleMessage` drops the payload (only the already-performed cursor clamp
remains) without tearing down the session. -/
theorem claim8_decode_error_iff (data : List ℕ) (sr : ℚ) (ch : ℕ) :
    ((decodeAudioData data sr ch = Except.error "RangeError") ↔
      data.length % 2 ≠ 0) ∧
    ((decodeAudioData data sr ch = Except.error "NotSupportedError") ↔
      data.length % 2 = 0 ∧ data.length / 2 / ch = 0) ∧
    (data.length % 2 = 0 → data.length / 2 / ch ≠ 0 →
      ∃ buf, decodeAudioData data sr ch = Except.ok buf ∧
        buf.channels.length = ch ∧
        ∀ c, c < ch →
          (buf.channels.getD c []).length = data.length / 2 / ch ∧
          ∀ i, i < data.length / 2 / ch →
            (buf.channels.getD c []).getD i 0 =
              ((bytesToInt16s data).getD (i * ch + c) 0 : ℚ) / 32768) ∧
    (∀ st now b64 e, decodeAudioData (base64ToBytes b64) 24000 1 = Except.error e →
      handleMessage st now (some b64) false =
        { st with nextStartTime := max st.nextStartTime now }) := by
  have hb := bytesToInt16s_length data
  refine ⟨?_, ?_, ?_, ?_⟩
  · unfold decodeAudioData
    rw [hb]
    split_ifs with h1 h2
    · simp [h1]
    · simp [h1]
    · simp [h1]
  · unfold decodeAudioData
    rw [hb]
    split_ifs with h1 h2
    · simp [h1]
    · simp only [ne_eq, not_not] at h1
      simp [h1, h2]
    · simp only [ne_eq, not_not] at h1
      simp [h1, h2]
  · intro h1 h2
    refine ⟨⟨sr,
        (List.range ch).map fun c =>
          (List.range ((bytesToInt16s data).length / ch)).map fun i =>
            ((bytesToInt16s data).getD (i * ch + c) 0 : ℚ) / 32768⟩, ?_, ?_, ?_⟩
    · unfold decodeAudioData
      rw [if_neg (by omega), if_neg (by rw [hb]; exact h2)]
    · simp
    · intro c hc
      have hget : ((List.range ch).map fun c =>
            (List.range ((bytesToInt16s data).length / ch)).map fun i =>
              ((bytesToInt16s data).getD (i * ch + c) 0 : ℚ) / 32768).getD c [] =
          (List.range ((bytesToInt16s data).length / ch)).map fun i =>
            ((bytesToInt16s data).getD (i * ch + c) 0 : ℚ) / 32768 := by
        rw [List.getD_eq_getElem _ _ (by simpa using hc), List.getElem_map,
          List.getElem_range]
      constructor
      · rw [hget]
        simp [bytesToInt16s_length]
      · intro i hi
        rw [hget]
        rw [List.getD_eq_getElem _ _
          (by simp only [List.length_map, List.length_range, bytesToInt16s_length]; exact hi),
          List.getElem_map, List.getElem_range]
  · intro st now b64 e herr
    simp only [handleMessage, herr]
    rfl

/-- Witness for the amended claim C8: a two-byte (even) payload decodes
successfully. -/
theorem claim8_decode_error_iff_witness :
    (decodeAudioData [0, 128] 24000 1).toOption.isSome = true := by
  obtain ⟨buf, hb, -, -⟩ :=
    (claim8_decode_error_iff [0, 128] 24000 1).2.2.1 (by decide) (by decide)
  rw [hb]
  rfl

end VoxStream
